import Mathlib

/-!
Verification development for the RDE remote-session multiplexer.

The repository drives a single interactive `rde ssh` child process. Two
sibling backends implement the same design: an Electron main process
(`main.js`, called the *electron variant* below) and an Express server
(`server.js`, the *server variant*). Both keep a command queue, attribute
stdout lines to the active command, and race several completion triggers
(prompt match, early policy for `supervisorctl status`, inactivity check in
the server variant, and a hard timeout). A separate `logs/tail` handler
spawns one process per log stream and splits its output into lines with a
carry buffer, classifying `==> file <==` headers.

Strings are modelled as `List Char` (`Str`). The JavaScript string
operations used by the source (`split('\n')`, `trim()`, `includes`,
the prompt regex `/[#$]\s*$/` and the header regex `/^==>\s+(.+?)\s+<==$/`)
are translated below, and the two event-driven handlers are modelled as
explicit state machines driven by input events (data chunks, timer
expiries, process exit).
-/

namespace Rde

abbrev Str := List Char

/-- JavaScript `\s` / `trim()` whitespace, restricted to the ASCII range the
code can encounter on a byte stream. -/
def isWs (c : Char) : Bool :=
  c = ' ' || c = '\t' || c = '\n' || c = '\r' || c = '\x0b' || c = '\x0c'

/-- Left part of JavaScript `String.prototype.trim`. -/
def trimL (s : Str) : Str := s.dropWhile isWs

/-- Right part of JavaScript `String.prototype.trim`. -/
def trimR (s : Str) : Str := (s.reverse.dropWhile isWs).reverse

/-- JavaScript `String.prototype.trim`: strip whitespace from both ends. -/
def trim (s : Str) : Str := trimR (trimL s)

/-- The prompt test `line.match(/[#$]\s*$/)` used by both variants
(`isPrompt` in server.js): the line ends in `#` or `$` followed only by
whitespace. -/
def isPrompt (l : Str) : Bool :=
  match l.reverse.dropWhile isWs with
  | [] => false
  | c :: _ => c = '#' || c = '$'

/-- One step of splitting on `'\n'` (building up `text.split('\n')`). -/
def nlStep (c : Char) (acc : List Str) : List Str :=
  if c = '\n' then [] :: acc
  else
    match acc with
    | [] => [[c]]
    | h :: t => (c :: h) :: t

/-- JavaScript `text.split('\n')`: always returns at least one segment, and
the final segment is the trailing text after the last newline. -/
def splitNl (s : Str) : List Str := s.foldr nlStep [[]]

/-- JavaScript `array.join('\n')`. -/
def joinNl : List Str → Str
  | [] => []
  | [l] => l
  | l :: ls => l ++ '\n' :: joinNl ls

/-- JavaScript `haystack.includes(needle)` on strings. -/
def isSub (needle : Str) : Str → Bool
  | [] => needle.isEmpty
  | c :: t => needle.isPrefixOf (c :: t) || isSub needle t

/-- Concatenation of a chunk sequence (the full byte stream they carry). -/
def joinAll : List Str → Str
  | [] => []
  | c :: cs => c ++ joinAll cs

/-- Merging the carried last segment into the head of the next split. -/
def mergeHead (x : Str) : List Str → List Str
  | [] => [x]
  | h :: t => (x ++ h) :: t

/-! ## The command session (electron variant, `main.js`)

The persistent `rde ssh` session, its command queue and its stdout/stderr
handlers are modelled as a state machine.  Commands are identified by their
`commandId` (a `Nat` here; the source generates unique string ids with a
counter, and compares trackers by object identity, which coincides with id
equality).  The model covers the post-handshake phase: `connectionResolve`
is `null`, so the Welcome-detection branch of the stdout handler is inert
and is omitted; the handshake itself is modelled separately below. The
debug traffic sent under the fixed id `'rde-debug'` is not modelled. -/

/-- The per-command output collector (`commandOutputs` values). -/
structure Outputs where
  stdout : List Str
  stderr : List Str
deriving DecidableEq

def Outputs.empty : Outputs := ⟨[], []⟩

/-- The `{ exitCode, output }` object passed to `tracker.resolve`. -/
structure CmdResult where
  exitCode : Nat
  output : Str
deriving DecidableEq

/-- Which completion path fired (recorded for the statements below;
the source has one inline completion block per trigger). -/
inductive Trigger
  | promptMatch
  | earlyPolicy
  | hardTimeout
deriving DecidableEq

/-- How a command's promise was settled. -/
inductive Settled
  | resolvedVia (trig : Trigger) (captured : List Str) (r : CmdResult)
  | rejectedMsg (msg : Str)
deriving DecidableEq

inductive Src
  | stdout
  | stderr
deriving DecidableEq

/-- Renderer-visible events (`sendToRenderer`), restricted to the
per-command `command/output` events and the `rde/status` events. -/
inductive EvOut
  | cmdOutput (id : Nat) (source : Src) (text : Str)
  | status (state : Str) (message : Str)
deriving DecidableEq

/-- The `commandTracker` object stored in `rdeProcess._currentCommand`. -/
structure Tracker where
  id : Nat
  command : Str
  earlyScheduled : Bool
deriving DecidableEq

/-- The mutable module state of `main.js` (plus the settlements and events
it has produced, and the multiset of pending timers). -/
structure St where
  procAlive : Bool
  queue : List (Str × Nat)
  executing : Bool
  current : Option Tracker
  outputs : List (Nat × Outputs)
  earlyTimers : List Nat
  hardTimers : List Nat
  settled : List (Nat × Settled)
  events : List EvOut
  stdinWrites : List Str
deriving DecidableEq

/-- `commandOutputs.get(k)`. -/
def mapGet (m : List (Nat × Outputs)) (k : Nat) : Option Outputs :=
  match m with
  | [] => none
  | e :: rest => if e.1 = k then some e.2 else mapGet rest k

/-- `commandOutputs.set(k, v)`: update in place, or append in insertion
order when the key is new (JavaScript `Map` semantics). -/
def mapSet (m : List (Nat × Outputs)) (k : Nat) (v : Outputs) :
    List (Nat × Outputs) :=
  match m with
  | [] => [(k, v)]
  | e :: rest => if e.1 = k then (k, v) :: rest else e :: mapSet rest k v

/-- `commandOutputs.delete(k)`. -/
def mapDel (m : List (Nat × Outputs)) (k : Nat) : List (Nat × Outputs) :=
  match m with
  | [] => []
  | e :: rest => if e.1 = k then mapDel rest k else e :: mapDel rest k

/-- `output ? output.stdout.join : ...` source of a command's captured
content lines. -/
def capturedIn (m : List (Nat × Outputs)) (id : Nat) : List Str :=
  match mapGet m id with
  | some o => o.stdout
  | none => []

def capturedFor (s : St) (id : Nat) : List Str := capturedIn s.outputs id

def closedMsg : Str := "RDE session closed".toList

def notEstablishedMsg : Str := "RDE session not established".toList

/-- The `'supervisorctl status'` early-completion key
(`command.includes('supervisorctl status')`). -/
def earlyPat : Str := "supervisorctl status".toList

/-- `processNextCommand()`: dequeue, mark executing, install the output
collector and the hard (fallback) timeout, store the tracker and write the
command line to the session's stdin. -/
def processNext (s : St) : St :=
  match s.queue, s.executing with
  | [], _ => s
  | _ :: _, true => s
  | (command, commandId) :: rest, false =>
    { s with
      queue := rest
      executing := true
      outputs := mapSet s.outputs commandId Outputs.empty
      hardTimers := s.hardTimers ++ [commandId]
      current := some ⟨commandId, command, false⟩
      stdinWrites := s.stdinWrites ++ [command ++ ['\n']] }

/-- The completion block shared (inline, verbatim) by the three electron
completion sites: read the collector, join it with newlines, drop the
collector, free the active slot and resolve with exit code `0`. -/
def resolveCurrent (s : St) (t : Tracker) (trig : Trigger) : St :=
  let cap := capturedFor s t.id
  { s with
    outputs := mapDel s.outputs t.id
    current := none
    executing := false
    settled := s.settled ++ [(t.id, Settled.resolvedVia trig cap ⟨0, joinNl cap⟩)] }

/-- First half of one `commandOutputs.forEach` iteration in the stdout
handler, for a content line: push the trimmed line into the collector and
publish it as a `command/output` event. -/
def capturePush (line : Str) (st : St) (cmdId : Nat) : St :=
  { st with
    outputs :=
      match mapGet st.outputs cmdId with
      | some o => mapSet st.outputs cmdId { o with stdout := o.stdout ++ [trim line] }
      | none => st.outputs
    events := st.events ++ [EvOut.cmdOutput cmdId Src.stdout (trim line)] }

/-- Second half of the iteration: for the entry belonging to the active
tracker, when its command matches the early-completion pattern, schedule
the grace-window timer once, guarded by `_earlyCompleteScheduled`. -/
def captureSched (st1 : St) (cmdId : Nat) : St :=
  match st1.current with
  | some t =>
    if t.id = cmdId ∧ isSub earlyPat t.command = true ∧ t.earlyScheduled = false then
      { st1 with
        current := some { t with earlyScheduled := true }
        earlyTimers := st1.earlyTimers ++ [cmdId] }
    else st1
  | none => st1

/-- One iteration of `commandOutputs.forEach` for a content line. -/
def captureIter (line : Str) (st : St) (cmdId : Nat) : St :=
  captureSched (capturePush line st cmdId) cmdId

/-- `If we see a prompt, complete the current command`: clear the active
command's hard timeout and run the shared completion block, then dequeue
the next command. -/
def promptFinish (s1 : St) : St :=
  match s1.current with
  | some t =>
    processNext
      (resolveCurrent { s1 with hardTimers := s1.hardTimers.erase t.id } t Trigger.promptMatch)
  | none => s1

/-- The per-line body of the stdout handler. In the source the capture
loop runs under `line.trim() && !isPrompt` and the prompt branch under
`isPrompt`; the two are mutually exclusive, so they are sequenced here as
an `if`/`else if`. -/
def stdoutLine (s : St) (line : Str) : St :=
  if isPrompt line = true then promptFinish s
  else if trim line ≠ [] then (s.outputs.map (·.1)).foldl (captureIter line) s
  else s

/-- The stdout `data` handler: split the chunk on newlines and process each
resulting line (the command path keeps no carry buffer). -/
def stdoutChunk (s : St) (text : Str) : St :=
  (splitNl text).foldl stdoutLine s

/-- One iteration of `commandOutputs.forEach` in the stderr handler. -/
def stderrIter (t : Str) (st : St) (cmdId : Nat) : St :=
  { st with
    outputs :=
      match mapGet st.outputs cmdId with
      | some o => mapSet st.outputs cmdId { o with stderr := o.stderr ++ [t] }
      | none => st.outputs
    events := st.events ++ [EvOut.cmdOutput cmdId Src.stderr t] }

/-- The stderr `data` handler: trim the whole chunk and, when nonempty,
record and publish it for every tracked command with source `stderr`. -/
def stderrChunk (s : St) (text : Str) : St :=
  if trim text = [] then s
  else (s.outputs.map (·.1)).foldl (stderrIter (trim text)) s

/-- The body of a timer callback: both timeout callbacks guard on the
active tracker still being this command (`rdeProcess._currentCommand`
identity, id equality here) and then run the shared completion block.
After the process has died (`rdeProcess === null`) the callbacks
dereference the nulled handle and throw, settling nothing. -/
def timerBody (s0 : St) (cmdId : Nat) (trig : Trigger) : St :=
  if s0.procAlive = true then
    match s0.current with
    | some t =>
      if t.id = cmdId then processNext (resolveCurrent s0 t trig) else s0
    | none => s0
  else s0

/-- The grace-window `setTimeout` callback of the early-completion policy
firing (the timer is consumed; the source keeps no handle to it, so it is
never cleared, only guarded). -/
def earlyFire (s : St) (cmdId : Nat) : St :=
  if cmdId ∈ s.earlyTimers then
    timerBody { s with earlyTimers := s.earlyTimers.erase cmdId } cmdId Trigger.earlyPolicy
  else s

/-- The hard (fallback) `setTimeout` callback firing. -/
def hardFire (s : St) (cmdId : Nat) : St :=
  if cmdId ∈ s.hardTimers then
    timerBody { s with hardTimers := s.hardTimers.erase cmdId } cmdId Trigger.hardTimeout
  else s

/-- `executeInRDESession`: reject when no session process exists, otherwise
enqueue and start processing if idle (the queue push leaves
`isExecutingCommand` unchanged, so the check is equivalent before or after
it). -/
def submit (s : St) (command : Str) (id : Nat) : St :=
  if s.procAlive = false then
    { s with settled := s.settled ++ [(id, Settled.rejectedMsg notEstablishedMsg)] }
  else if s.executing = false then
    processNext { s with queue := s.queue ++ [(command, id)] }
  else
    { s with queue := s.queue ++ [(command, id)] }

/-- The `rdeProcess.on('exit')` handler: null the process handle and the
active tracker, reject every *queued* command with `'RDE session closed'`,
clear the queue and the collectors, and emit a `disconnected` status event.
Pending timers are not cleared. -/
def exited (s : St) : St :=
  if s.procAlive then
    { s with
      procAlive := false
      current := none
      settled := s.settled ++ s.queue.map (fun q => (q.2, Settled.rejectedMsg closedMsg))
      queue := []
      outputs := []
      executing := false
      events := s.events ++ [EvOut.status "disconnected".toList closedMsg] }
  else s

/-- Input events driving the session machine. -/
inductive Ev
  | submit (command : Str) (id : Nat)
  | stdout (text : Str)
  | stderr (text : Str)
  | earlyFire (id : Nat)
  | hardFire (id : Nat)
  | exited
deriving DecidableEq

def step (s : St) : Ev → St
  | .submit c i => Rde.submit s c i
  | .stdout t => stdoutChunk s t
  | .stderr t => stderrChunk s t
  | .earlyFire i => Rde.earlyFire s i
  | .hardFire i => Rde.hardFire s i
  | .exited => Rde.exited s

/-- The state right after a successful connect handshake. -/
def connectedSt : St :=
  { procAlive := true, queue := [], executing := false, current := none
    outputs := [], earlyTimers := [], hardTimers := [], settled := []
    events := [], stdinWrites := [] }

def run (evs : List Ev) : St := evs.foldl step connectedSt

/-! ## Invariants of the session machine -/

/-- A line as stored in a collector: already trimmed, and not blank. -/
def GoodLine (l : Str) : Prop := trim l = l ∧ l ≠ []

/-- Every resolved result carries exit code `0` and the newline-join of the
lines that were captured for it, all of them trimmed and nonblank. -/
def SettledGood : Nat × Settled → Prop
  | (_, Settled.resolvedVia _ cap r) =>
      r.exitCode = 0 ∧ r.output = joinNl cap ∧ ∀ l ∈ cap, GoodLine l
  | (_, Settled.rejectedMsg _) => True

def StGood (s : St) : Prop :=
  (∀ e ∈ s.settled, SettledGood e) ∧
  (∀ p ∈ s.outputs, ∀ l ∈ p.2.stdout, GoodLine l)

/-! ## The log streams (`logs/tail` handler, electron variant)

The handler appends each stdout chunk to a carry buffer, splits on
newlines, keeps the trailing incomplete segment buffered
(`buffer = lines.pop() || ''`), and classifies each complete line: blank
lines are dropped, `==> path <==` headers update the current-file context
without being forwarded, and every other line is forwarded (trimmed) as a
`logs/line` event attributed to the current file. -/

/-- The file-header regex `/^==>\s+(.+?)\s+<==$/` applied to a (trimmed)
line. A match requires the literal `==>` prefix and `<==` suffix with a
middle part `m` whose first and last characters are whitespace and whose
length is at least 3 (so the lazy `(.+?)` group is nonempty). The captured
group is `m` stripped of its maximal leading and trailing whitespace runs;
when `m` is all whitespace, backtracking leaves the single character at
position `m.length - 2` in the group. -/
def parseHeader (l : Str) : Option Str :=
  if 9 ≤ l.length ∧ l.take 3 = ['=', '=', '>'] ∧
      l.drop (l.length - 3) = ['<', '=', '='] then
    let m := (l.drop 3).take (l.length - 6)
    if (match m.head? with | some c => isWs c | none => false) = true ∧
        (match m.getLast? with | some c => isWs c | none => false) = true then
      if trim m = [] then some [m.getD (m.length - 2) ' '] else some (trim m)
    else none
  else none

/-- A `logs/line` event: the attributed file and the forwarded line. -/
structure TailSt where
  buf : Str
  currentFile : Str
  emitted : List (Str × Str)
deriving DecidableEq

/-- The per-complete-line body of the `logs/tail` stdout handler. -/
def tailLine (st : TailSt) (line : Str) : TailSt :=
  if trim line = [] then st
  else
    match parseHeader (trim line) with
    | some f => { st with currentFile := f }
    | none => { st with emitted := st.emitted ++ [(st.currentFile, trim line)] }

/-- The `logs/tail` stdout `data` handler: append the chunk to the carry
buffer, split on newlines, retain the trailing partial segment, and
process every complete line. -/
def tailChunk (st : TailSt) (chunk : Str) : TailSt :=
  { (splitNl (st.buf ++ chunk)).dropLast.foldl tailLine { st with buf := [] } with
    buf := (splitNl (st.buf ++ chunk)).getLastD [] }

/-- A whole stream run: initial empty buffer, initial current file
`files[0]`, fed the given stdout chunks in order. -/
def runTail (f0 : Str) (chunks : List Str) : TailSt :=
  chunks.foldl tailChunk ⟨[], f0, []⟩

/-! ## Server-variant specifics (`server.js`)

The server variant shares the queue/tracker design; it additionally polls
for output inactivity (`checkOutputActivity`, 1 s quiet period re-checked
every 200 ms) and completes through a shared `completeCommand` closure.
Its `logs/tail` handler differs from the electron one: no carry buffer and
no trimming of forwarded lines. -/

/-- server.js `completeCommand`: read the collector, join its stdout lines
with newlines (empty string when the collector is gone) and resolve with
exit code `0`. -/
def completeCommand006 (outputs : List (Nat × Outputs)) (cmdId : Nat) : CmdResult :=
  ⟨0, joinNl (capturedIn outputs cmdId)⟩

/-- What one invocation of `checkOutputActivity` does. -/
inductive ActivityAction
  | complete
  | recheck (delayMs : Nat)
  | idle
deriving DecidableEq

/-- server.js `checkOutputActivity`: under the usual tracker guard, when at
least 1000 ms have passed since the last output *and* at least one stdout
line was captured, complete the command; otherwise poll again in 200 ms.
With a stale tracker the poll chain simply stops. -/
def checkOutputActivity (trackerIsCurrent : Bool) (timeSinceLastOutput : Nat)
    (output : Option Outputs) : ActivityAction :=
  if trackerIsCurrent = true then
    if 1000 ≤ timeSinceLastOutput then
      match output with
      | some o =>
          if 0 < o.stdout.length then ActivityAction.complete
          else ActivityAction.recheck 200
      | none => ActivityAction.recheck 200
    else ActivityAction.recheck 200
  else ActivityAction.idle

/-- The inactivity trigger end to end: when the poll decides to complete,
the command resolves with the `completeCommand` result. -/
def inactivityOutcome (outputs : List (Nat × Outputs)) (cmdId : Nat)
    (trackerIsCurrent : Bool) (timeSince : Nat) : Option CmdResult :=
  match checkOutputActivity trackerIsCurrent timeSince (mapGet outputs cmdId) with
  | ActivityAction.complete => some (completeCommand006 outputs cmdId)
  | _ => none

/-- server.js `logs/tail` attribution:
`files[currentFileIndex % files.length] || files[0]`, with
`currentFileIndex` initialised to 0 and never changed. -/
def fileAt (files : List Str) (i : Nat) : Str :=
  match files.get? (i % files.length) with
  | some f => f
  | none => files.headD []

/-- The server-variant `logs/tail` stdout handler: split the chunk (no
carry buffer), drop whitespace-only lines
(`.filter(l => l.trim())`), and forward the remaining lines *untrimmed*. -/
def serverTailChunk (files : List Str) (currentFileIndex : Nat) (text : Str) :
    List (Str × Str) :=
  ((splitNl text).filter (fun l => !(trim l).isEmpty)).map
    (fun line => (fileAt files currentFileIndex, line))

/-! ## The connect handshake

`rde/connect` (electron) and `/api/rde/connect` (server): create or reuse
the single session process, then wait up to 15 s for the case-insensitive
`Welcome` greeting in the rolling handshake buffer. The wait is modelled
by the list of stdout chunks that arrive within the window: an empty or
greeting-free list means the 15 s timeout fires. -/

structure ConnSt where
  procExists : Bool
  connected : Bool
  welcomeBuffer : Str
deriving DecidableEq

inductive ConnectResult
  | ok
  | failTimeout
deriving DecidableEq

/-- `createRDESession`: an existing process is returned untouched and
nothing is spawned; otherwise one process is spawned and the welcome
buffer reset. The `Bool` reports whether a spawn happened. -/
def createSession (s : ConnSt) : ConnSt × Bool :=
  if s.procExists = true then (s, false)
  else ({ s with procExists := true, welcomeBuffer := [] }, true)

def toLowerStr (s : Str) : Str := s.map Char.toLower

/-- `welcomeBuffer.toLowerCase().includes('welcome')`. -/
def welcomeSeen (buf : Str) : Bool := isSub ("welcome".toList) (toLowerStr buf)

/-- Welcome-buffer accumulation with the ~10 KB cap, truncated to the last
~5 KB on overflow (`welcomeBuffer.slice(-5000)`). -/
def accumWelcome (buf chunk : Str) : Str :=
  if 10000 < (buf ++ chunk).length then
    (buf ++ chunk).drop ((buf ++ chunk).length - 5000)
  else buf ++ chunk

/-- Whether the greeting is detected from the chunks arriving within the
wait window, checked after each chunk as in the stdout handler. -/
def welcomeWait (buf : Str) : List Str → Bool
  | [] => false
  | c :: rest =>
    if welcomeSeen (accumWelcome buf c) then true
    else welcomeWait (accumWelcome buf c) rest

/-- `closeRDESession`: end stdin, kill the process, clear the state. -/
def closeSession (s : ConnSt) : ConnSt :=
  { s with procExists := false, connected := false, welcomeBuffer := [] }

/-- The electron `rde/connect` handler: create or reuse the session
process, then (unconditionally, even when already connected) wait for the
greeting from a freshly reset buffer; on success mark connected, on
timeout close the session — killing the process, also a previously healthy
one — and fail. Returns the result, the final state, and whether a
process was spawned. -/
def connectElectron (s : ConnSt) (chunks : List Str) :
    ConnectResult × ConnSt × Bool :=
  if welcomeWait [] chunks then
    (ConnectResult.ok, { (createSession s).1 with connected := true },
      (createSession s).2)
  else
    (ConnectResult.failTimeout, closeSession (createSession s).1,
      (createSession s).2)

/-- The server-variant `/api/rde/connect`: an explicit early no-op success
when already connected (`currentTarget !== null && rdeProcess`); otherwise
the same create-and-wait flow. -/
def connectServer (s : ConnSt) (chunks : List Str) :
    ConnectResult × ConnSt × Bool :=
  if s.connected = true ∧ s.procExists = true then (ConnectResult.ok, s, false)
  else connectElectron s chunks

/-- A connected session with one tracked collector holding one captured
stdout line (used to exercise the stderr handler). -/
def c9St : St := { connectedSt with outputs := [(1, ⟨["x".toList], []⟩)] }

/-! ## Lemmas and claim theorems -/

theorem dropWhile_head_false (p : Char → Bool) (l : Str) (c : Char)
    (h : (l.dropWhile p).head? = some c) : p c = false := by
  induction l with
  | nil => simp [List.dropWhile] at h
  | cons a t ih =>
    rw [List.dropWhile_cons] at h
    by_cases hp : p a
    · rw [if_pos hp] at h
      exact ih h
    · rw [if_neg hp] at h
      simp only [List.head?_cons, Option.some.injEq] at h
      subst h
      exact Bool.not_eq_true _ ▸ (by simpa using hp)

theorem dropWhile_isWs_idem (l : Str) :
    (l.dropWhile isWs).dropWhile isWs = l.dropWhile isWs := by
  cases h : l.dropWhile isWs with
  | nil => simp
  | cons c t =>
    have hc : isWs c = false :=
      dropWhile_head_false isWs l c (by rw [h]; rfl)
    rw [List.dropWhile_cons, hc]
    simp

theorem trimL_trimL (s : Str) : trimL (trimL s) = trimL s :=
  dropWhile_isWs_idem s

theorem trimR_trimR (s : Str) : trimR (trimR s) = trimR s := by
  unfold trimR
  rw [List.reverse_reverse, dropWhile_isWs_idem]

theorem trimR_front (s : Str) : ∃ w, s = trimR s ++ w := by
  refine ⟨(s.reverse.takeWhile isWs).reverse, ?_⟩
  unfold trimR
  rw [← List.reverse_append, List.takeWhile_append_dropWhile, List.reverse_reverse]

theorem trimL_trimR_trimL (s : Str) :
    trimL (trimR (trimL s)) = trimR (trimL s) := by
  obtain ⟨w, hw⟩ := trimR_front (trimL s)
  cases h : trimR (trimL s) with
  | nil => simp [trimL]
  | cons c t =>
    have hhead : (trimL s).head? = some c := by
      rw [hw, h]; rfl
    have hc : isWs c = false := dropWhile_head_false isWs s c hhead
    unfold trimL
    rw [List.dropWhile_cons, hc]
    simp

theorem trim_trim (s : Str) : trim (trim s) = trim s := by
  unfold trim
  rw [trimL_trimR_trimL, trimR_trimR]

theorem splitNl_ne_nil (s : Str) : splitNl s ≠ [] := by
  induction s with
  | nil => simp [splitNl]
  | cons c rest ih =>
    simp only [splitNl, List.foldr_cons] at *
    unfold nlStep
    split
    · simp
    · split
      · simp
      · simp

theorem splitNl_cons (c : Char) (rest : Str) :
    splitNl (c :: rest) = nlStep c (splitNl rest) := rfl

theorem splitNl_mem_no_nl (s : Str) : ∀ p ∈ splitNl s, '\n' ∉ p := by
  induction s with
  | nil =>
    intro p hp
    simp [splitNl] at hp
    simp [hp]
  | cons c rest ih =>
    intro p hp
    rw [splitNl_cons] at hp
    unfold nlStep at hp
    by_cases h : c = '\n'
    · rw [if_pos h] at hp
      rcases List.mem_cons.mp hp with h1 | h1
      · simp [h1]
      · exact ih p h1
    · rw [if_neg h] at hp
      cases hs : splitNl rest with
      | nil => exact absurd hs (splitNl_ne_nil rest)
      | cons h0 t0 =>
        rw [hs] at hp
        rcases List.mem_cons.mp hp with h1 | h1
        · subst h1
          intro hmem
          rcases List.mem_cons.mp hmem with h2 | h2
          · exact h h2.symm
          · exact ih h0 (by rw [hs]; exact List.mem_cons_self _ _) h2
        · exact ih p (by rw [hs]; exact List.mem_cons.mpr (Or.inr h1))

theorem splitNl_no_nl (s : Str) (h : '\n' ∉ s) : splitNl s = [s] := by
  induction s with
  | nil => rfl
  | cons c rest ih =>
    have hc : c ≠ '\n' := fun hc => h (hc ▸ List.mem_cons_self c rest)
    have hr : '\n' ∉ rest := fun hr => h (List.mem_cons.mpr (Or.inr hr))
    rw [splitNl_cons, ih hr]
    unfold nlStep
    rw [if_neg hc]

theorem foldr_nlStep_seed (a : Str) (h : Str) (t : List Str) :
    a.foldr nlStep (h :: t) =
      (splitNl a).dropLast ++ ((splitNl a).getLastD [] ++ h) :: t := by
  induction a with
  | nil => simp [splitNl]
  | cons c a' ih =>
    rw [List.foldr_cons, ih, splitNl_cons]
    unfold nlStep
    by_cases hc : c = '\n'
    · rw [if_pos hc, if_pos hc]
      cases hs : splitNl a' with
      | nil => exact absurd hs (splitNl_ne_nil a')
      | cons s0 ss =>
        simp [List.getLastD_cons]
    · rw [if_neg hc, if_neg hc]
      cases hs : splitNl a' with
      | nil => exact absurd hs (splitNl_ne_nil a')
      | cons s0 ss =>
        cases ss with
        | nil => simp
        | cons s1 sss => simp [List.getLastD_cons]

theorem splitNl_append (a b : Str) :
    splitNl (a ++ b) =
      (splitNl a).dropLast ++ mergeHead ((splitNl a).getLastD []) (splitNl b) := by
  have : splitNl (a ++ b) = a.foldr nlStep (splitNl b) := by
    unfold splitNl
    rw [List.foldr_append]
  rw [this]
  cases hb : splitNl b with
  | nil => exact absurd hb (splitNl_ne_nil b)
  | cons hb0 tb => rw [foldr_nlStep_seed]; rfl

theorem foldl_preserve {α σ : Type _} (P : σ → Prop) (f : σ → α → σ)
    (h : ∀ s a, P s → P (f s a)) :
    ∀ (l : List α) (s : σ), P s → P (l.foldl f s) := by
  intro l
  induction l with
  | nil => intro s hs; exact hs
  | cons a t ih =>
    intro s hs
    rw [List.foldl_cons]
    exact ih _ (h s a hs)

theorem mem_mapSet (m : List (Nat × Outputs)) (k : Nat) (v : Outputs)
    (p : Nat × Outputs) (hp : p ∈ mapSet m k v) : p = (k, v) ∨ p ∈ m := by
  induction m with
  | nil =>
    unfold mapSet at hp
    simp at hp
    exact Or.inl hp
  | cons e rest ih =>
    unfold mapSet at hp
    by_cases he : e.1 = k
    · rw [if_pos he] at hp
      rcases List.mem_cons.mp hp with h | h
      · exact Or.inl h
      · exact Or.inr (List.mem_cons.mpr (Or.inr h))
    · rw [if_neg he] at hp
      rcases List.mem_cons.mp hp with h | h
      · exact Or.inr (List.mem_cons.mpr (Or.inl h))
      · rcases ih h with h1 | h1
        · exact Or.inl h1
        · exact Or.inr (List.mem_cons.mpr (Or.inr h1))

theorem mem_mapDel (m : List (Nat × Outputs)) (k : Nat)
    (p : Nat × Outputs) (hp : p ∈ mapDel m k) : p ∈ m := by
  induction m with
  | nil => simp [mapDel] at hp
  | cons e rest ih =>
    unfold mapDel at hp
    by_cases he : e.1 = k
    · rw [if_pos he] at hp
      exact List.mem_cons.mpr (Or.inr (ih hp))
    · rw [if_neg he] at hp
      rcases List.mem_cons.mp hp with h | h
      · exact List.mem_cons.mpr (Or.inl h)
      · exact List.mem_cons.mpr (Or.inr (ih h))

theorem mapGet_mem (m : List (Nat × Outputs)) (k : Nat) (o : Outputs)
    (h : mapGet m k = some o) : (k, o) ∈ m := by
  induction m with
  | nil => simp [mapGet] at h
  | cons e rest ih =>
    obtain ⟨e1, e2⟩ := e
    unfold mapGet at h
    by_cases he : e1 = k
    · subst he
      rw [if_pos rfl] at h
      simp only [Option.some.injEq] at h
      subst h
      exact List.mem_cons_self _ _
    · rw [if_neg he] at h
      exact List.mem_cons.mpr (Or.inr (ih h))

theorem capturedFor_good (s : St) (h : StGood s) (id : Nat) :
    ∀ l ∈ capturedFor s id, GoodLine l := by
  intro l hl
  unfold capturedFor capturedIn at hl
  cases hg : mapGet s.outputs id with
  | none => rw [hg] at hl; simp at hl
  | some o =>
    rw [hg] at hl
    exact h.2 (id, o) (mapGet_mem _ _ _ hg) l hl

theorem stGood_processNext (s : St) (h : StGood s) : StGood (processNext s) := by
  unfold processNext
  split
  · exact h
  · exact h
  · next command commandId rest _ _ =>
    refine ⟨h.1, ?_⟩
    intro p hp l hl
    rcases mem_mapSet _ _ _ _ hp with h1 | h1
    · subst h1
      simp [Outputs.empty] at hl
    · exact h.2 p h1 l hl

theorem stGood_resolveCurrent (s : St) (t : Tracker) (trig : Trigger)
    (h : StGood s) : StGood (resolveCurrent s t trig) := by
  constructor
  · intro e he
    simp only [resolveCurrent] at he
    rcases List.mem_append.mp he with h1 | h1
    · exact h.1 e h1
    · simp only [List.mem_singleton] at h1
      subst h1
      exact ⟨rfl, rfl, capturedFor_good s h t.id⟩
  · intro p hp l hl
    simp only [resolveCurrent] at hp
    exact h.2 p (mem_mapDel _ _ _ hp) l hl

theorem stGood_capturePush (line : Str) (hl : trim line ≠ []) (st : St)
    (k : Nat) (h : StGood st) : StGood (capturePush line st k) := by
  have hline : GoodLine (trim line) := ⟨trim_trim line, hl⟩
  refine ⟨h.1, ?_⟩
  intro p hp l hml
  unfold capturePush at hp
  simp only at hp
  cases hg : mapGet st.outputs k with
  | none =>
    rw [hg] at hp
    exact h.2 p hp l hml
  | some o =>
    rw [hg] at hp
    rcases mem_mapSet _ _ _ _ hp with h2 | h2
    · subst h2
      simp only at hml
      rcases List.mem_append.mp hml with h3 | h3
      · exact h.2 (k, o) (mapGet_mem _ _ _ hg) l h3
      · simp only [List.mem_singleton] at h3
        subst h3
        exact hline
    · exact h.2 p h2 l hml

theorem stGood_captureSched (st : St) (k : Nat) (h : StGood st) :
    StGood (captureSched st k) := by
  unfold captureSched
  split
  · split
    · exact h
    · exact h
  · exact h

theorem stGood_captureIter (line : Str) (hl : trim line ≠ []) (st : St)
    (k : Nat) (h : StGood st) : StGood (captureIter line st k) :=
  stGood_captureSched _ _ (stGood_capturePush line hl st k h)

theorem stGood_promptFinish (s1 : St) (h1 : StGood s1) :
    StGood (promptFinish s1) := by
  unfold promptFinish
  split
  · exact stGood_processNext _ (stGood_resolveCurrent _ _ _ h1)
  · exact h1

theorem stGood_timerBody (s0 : St) (k : Nat) (trig : Trigger)
    (h : StGood s0) : StGood (timerBody s0 k trig) := by
  unfold timerBody
  split
  · split
    · split
      · exact stGood_processNext _ (stGood_resolveCurrent _ _ _ h)
      · exact h
    · exact h
  · exact h

theorem stGood_stdoutLine (s : St) (line : Str) (h : StGood s) :
    StGood (stdoutLine s line) := by
  unfold stdoutLine
  split
  · exact stGood_promptFinish s h
  · split
    · next hne =>
      exact foldl_preserve StGood (captureIter line)
        (fun st k => stGood_captureIter line hne st k) _ s h
    · exact h

theorem stGood_stderrIter (t : Str) (st : St) (k : Nat) (h : StGood st) :
    StGood (stderrIter t st k) := by
  unfold stderrIter
  refine ⟨h.1, ?_⟩
  intro p hp l hml
  cases hg : mapGet st.outputs k with
  | none =>
    rw [hg] at hp
    exact h.2 p hp l hml
  | some o =>
    rw [hg] at hp
    rcases mem_mapSet _ _ _ _ hp with h2 | h2
    · subst h2
      exact h.2 (k, o) (mapGet_mem _ _ _ hg) l hml
    · exact h.2 p h2 l hml

theorem stGood_step (s : St) (ev : Ev) (h : StGood s) : StGood (step s ev) := by
  cases ev with
  | submit c i =>
    show StGood (Rde.submit s c i)
    unfold Rde.submit
    split
    · refine ⟨?_, h.2⟩
      intro e he
      rcases List.mem_append.mp he with h1 | h1
      · exact h.1 e h1
      · simp only [List.mem_singleton] at h1
        subst h1
        trivial
    · split
      · exact stGood_processNext _ ⟨h.1, h.2⟩
      · exact ⟨h.1, h.2⟩
  | stdout t =>
    exact foldl_preserve StGood stdoutLine (fun s l => stGood_stdoutLine s l) _ s h
  | stderr t =>
    show StGood (stderrChunk s t)
    unfold stderrChunk
    split
    · exact h
    · exact foldl_preserve StGood (stderrIter (trim t))
        (fun st k => stGood_stderrIter (trim t) st k) _ s h
  | earlyFire i =>
    show StGood (Rde.earlyFire s i)
    unfold Rde.earlyFire
    split
    · exact stGood_timerBody _ _ _ ⟨h.1, h.2⟩
    · exact h
  | hardFire i =>
    show StGood (Rde.hardFire s i)
    unfold Rde.hardFire
    split
    · exact stGood_timerBody _ _ _ ⟨h.1, h.2⟩
    · exact h
  | exited =>
    show StGood (Rde.exited s)
    unfold Rde.exited
    split
    · constructor
      · intro e he
        rcases List.mem_append.mp he with h1 | h1
        · exact h.1 e h1
        · rcases List.mem_map.mp h1 with ⟨q, _, hq⟩
          subst hq
          trivial
      · intro p hp
        simp at hp
    · exact h

theorem stGood_run (evs : List Ev) : StGood (run evs) := by
  unfold run
  refine foldl_preserve StGood step (fun s ev => stGood_step s ev) evs connectedSt ?_
  exact ⟨by intro e he; simp [connectedSt] at he, by intro p hp; simp [connectedSt] at hp⟩

theorem dropWhile_append_all {p : Char → Bool} (a b : Str)
    (h : ∀ x ∈ a, p x = true) : (a ++ b).dropWhile p = b.dropWhile p := by
  induction a with
  | nil => rfl
  | cons x xs ih =>
    rw [List.cons_append, List.dropWhile_cons, h x (List.mem_cons_self x xs),
      ih (fun y hy => h y (List.mem_cons.mpr (Or.inr hy)))]
    simp

/-- The prompt regex `/[#$]\s*$/` matches exactly the lines that end in a
`#` or `$` followed only by whitespace. -/
theorem isPrompt_iff (l : Str) : isPrompt l = true ↔
    ∃ pre c ws, l = pre ++ c :: ws ∧ (c = '#' ∨ c = '$') ∧
      ∀ x ∈ ws, isWs x = true := by
  constructor
  · intro h
    unfold isPrompt at h
    cases hd : l.reverse.dropWhile isWs with
    | nil => rw [hd] at h; simp at h
    | cons c rest =>
      rw [hd] at h
      simp only [Bool.or_eq_true, decide_eq_true_eq] at h
      refine ⟨rest.reverse, c, (l.reverse.takeWhile isWs).reverse, ?_, h, ?_⟩
      · have hsplit : l.reverse = l.reverse.takeWhile isWs ++ (c :: rest) := by
          rw [← hd, List.takeWhile_append_dropWhile]
        calc l = l.reverse.reverse := (List.reverse_reverse l).symm
          _ = (l.reverse.takeWhile isWs ++ (c :: rest)).reverse := by rw [← hsplit]
          _ = (c :: rest).reverse ++ (l.reverse.takeWhile isWs).reverse := by
                rw [List.reverse_append]
          _ = rest.reverse ++ c :: (l.reverse.takeWhile isWs).reverse := by
                rw [List.reverse_cons, List.append_assoc]
                rfl
      · intro x hx
        exact List.mem_takeWhile_imp (List.mem_reverse.mp hx)
  · rintro ⟨pre, c, ws, rfl, hc, hws⟩
    have hcW : isWs c = false := by
      rcases hc with rfl | rfl <;> decide
    have hscr : (pre ++ c :: ws).reverse.dropWhile isWs = c :: pre.reverse := by
      rw [List.reverse_append, List.reverse_cons, List.append_assoc,
        dropWhile_append_all _ _ (fun x hx => hws x (List.mem_reverse.mp hx)),
        List.singleton_append, List.dropWhile_cons, hcW]
      simp
    unfold isPrompt
    rw [hscr]
    rcases hc with rfl | rfl <;> simp

theorem processNext_settled (s : St) : (processNext s).settled = s.settled := by
  unfold processNext
  split <;> rfl

theorem processNext_earlyTimers (s : St) :
    (processNext s).earlyTimers = s.earlyTimers := by
  unfold processNext
  split <;> rfl

/-- A prompt line completes the active command: the shared completion block
resolves it with exit code `0` and the newline-join of the lines captured
for it so far, leaving earlier settlements untouched. -/
theorem stdoutLine_prompt_settled (s : St) (t : Tracker) (l : Str)
    (hc : s.current = some t) (hp : isPrompt l = true) :
    (stdoutLine s l).settled = s.settled ++
      [(t.id, Settled.resolvedVia Trigger.promptMatch (capturedFor s t.id)
        ⟨0, joinNl (capturedFor s t.id)⟩)] := by
  unfold stdoutLine
  rw [if_pos hp]
  unfold promptFinish
  rw [hc]
  rw [processNext_settled]
  rfl

/-- Once `_earlyCompleteScheduled` is set on the active tracker, no line
ever schedules another grace-window timer. -/
theorem captureSched_noop (st : St) (k : Nat) (t : Tracker)
    (hc : st.current = some t) (hf : t.earlyScheduled = true) :
    captureSched st k = st := by
  unfold captureSched
  rw [hc]
  dsimp only
  rw [if_neg]
  intro hcond
  rw [hf] at hcond
  simp at hcond

theorem foldl_captureIter_keep (line : Str) (keys : List Nat) :
    ∀ (st : St) (t : Tracker), st.current = some t → t.earlyScheduled = true →
      (keys.foldl (captureIter line) st).earlyTimers = st.earlyTimers ∧
      (keys.foldl (captureIter line) st).current = some t := by
  induction keys with
  | nil => intro st t hc _; exact ⟨rfl, hc⟩
  | cons k ks ih =>
    intro st t hc hf
    rw [List.foldl_cons]
    have hcur : (capturePush line st k).current = some t := hc
    have hiter : captureIter line st k = capturePush line st k :=
      captureSched_noop (capturePush line st k) k t hcur hf
    rw [hiter]
    obtain ⟨h1, h2⟩ := ih (capturePush line st k) t hcur hf
    exact ⟨h1.trans rfl, h2⟩

/-- With the flag already set, processing any further line leaves the set
of pending grace-window timers unchanged. -/
theorem stdoutLine_no_second_timer (s : St) (t : Tracker) (l : Str)
    (hc : s.current = some t) (hf : t.earlyScheduled = true) :
    (stdoutLine s l).earlyTimers = s.earlyTimers := by
  unfold stdoutLine
  split
  · unfold promptFinish
    rw [hc]
    dsimp only
    rw [processNext_earlyTimers]
    rfl
  · split
    · exact (foldl_captureIter_keep l _ s t hc hf).1
    · rfl

/-- The first content line for an active early-policy command: it is
captured (trimmed), published, and schedules exactly one grace-window
timer, setting `_earlyCompleteScheduled`. -/
theorem stdoutLine_first_content (s : St) (t : Tracker) (out : Outputs) (l : Str)
    (hc : s.current = some t) (hf : t.earlyScheduled = false)
    (hpat : isSub earlyPat t.command = true)
    (houts : s.outputs = [(t.id, out)])
    (hne : trim l ≠ []) (hp : isPrompt l = false) :
    stdoutLine s l =
      { s with
        outputs := [(t.id, { out with stdout := out.stdout ++ [trim l] })]
        events := s.events ++ [EvOut.cmdOutput t.id Src.stdout (trim l)]
        current := some ⟨t.id, t.command, true⟩
        earlyTimers := s.earlyTimers ++ [t.id] } := by
  unfold stdoutLine
  rw [hp]
  rw [if_neg (by simp)]
  rw [if_pos hne, houts]
  simp only [List.map_cons, List.map_nil, List.foldl_cons, List.foldl_nil]
  unfold captureIter capturePush
  rw [houts]
  unfold mapGet
  rw [if_pos rfl]
  unfold mapSet
  rw [if_pos rfl]
  unfold captureSched
  rw [show ({ s with
      outputs := [(t.id, { out with stdout := out.stdout ++ [trim l] })]
      events := s.events ++ [EvOut.cmdOutput t.id Src.stdout (trim l)] } : St).current
    = s.current from rfl, hc]
  dsimp only
  rw [if_pos ⟨rfl, hpat, hf⟩]

/-- Grace-window expiry with the command still active completes it with
everything captured so far. -/
theorem earlyFire_settled (s : St) (t : Tracker)
    (hpa : s.procAlive = true) (hc : s.current = some t)
    (hmem : t.id ∈ s.earlyTimers) :
    (earlyFire s t.id).settled = s.settled ++
      [(t.id, Settled.resolvedVia Trigger.earlyPolicy (capturedFor s t.id)
        ⟨0, joinNl (capturedFor s t.id)⟩)] := by
  unfold earlyFire
  rw [if_pos hmem]
  unfold timerBody
  rw [if_pos hpa]
  rw [show ({ s with earlyTimers := s.earlyTimers.erase t.id } : St).current
    = s.current from rfl, hc]
  dsimp only
  rw [if_pos rfl, processNext_settled]
  rfl

theorem mapGet_mapSet (m : List (Nat × Outputs)) (k : Nat) (v : Outputs)
    (id : Nat) :
    mapGet (mapSet m k v) id = if id = k then some v else mapGet m id := by
  induction m with
  | nil =>
    unfold mapSet mapGet
    by_cases h : id = k
    · subst h
      rw [if_pos rfl, if_pos rfl]
    · rw [if_neg (fun hk => h hk.symm), if_neg h]
      rfl
  | cons e rest ih =>
    unfold mapSet
    by_cases he : e.1 = k
    · rw [if_pos he]
      unfold mapGet
      by_cases hid : id = k
      · subst hid
        rw [if_pos rfl, if_pos rfl]
      · rw [if_neg (fun hk => hid hk.symm), if_neg hid,
          if_neg (fun h1 => hid (he ▸ h1).symm)]
    · rw [if_neg he]
      unfold mapGet
      by_cases hei : e.1 = id
      · rw [if_pos hei, if_pos hei, if_neg (fun hik => he (hei ▸ hik))]
      · rw [if_neg hei, if_neg hei, ih]

theorem stderrIter_settled (t : Str) (st : St) (k : Nat) :
    (stderrIter t st k).settled = st.settled := rfl

theorem stderrIter_events (t : Str) (st : St) (k : Nat) :
    (stderrIter t st k).events =
      st.events ++ [EvOut.cmdOutput k Src.stderr t] := rfl

theorem capturedFor_stderrIter (t : Str) (st : St) (k id : Nat) :
    capturedFor (stderrIter t st k) id = capturedFor st id := by
  unfold capturedFor capturedIn stderrIter
  cases hg : mapGet st.outputs k with
  | none => rfl
  | some o =>
    dsimp only
    rw [mapGet_mapSet]
    by_cases hid : id = k
    · rw [if_pos hid, hid, hg]
    · rw [if_neg hid]

theorem foldl_stderrIter_spec (t : Str) (keys : List Nat) :
    ∀ (st : St),
      (keys.foldl (stderrIter t) st).settled = st.settled ∧
      (∀ id, capturedFor (keys.foldl (stderrIter t) st) id = capturedFor st id) ∧
      (keys.foldl (stderrIter t) st).events =
        st.events ++ keys.map (fun k => EvOut.cmdOutput k Src.stderr t) := by
  induction keys with
  | nil => intro st; exact ⟨rfl, fun _ => rfl, by simp⟩
  | cons k ks ih =>
    intro st
    rw [List.foldl_cons]
    obtain ⟨h1, h2, h3⟩ := ih (stderrIter t st k)
    refine ⟨h1.trans (stderrIter_settled t st k),
      fun id => (h2 id).trans (capturedFor_stderrIter t st k id), ?_⟩
    rw [h3, stderrIter_events, List.map_cons, List.append_assoc]
    rfl

/-- The stderr handler settles nothing, captures no stdout content, and
every event it publishes has source `stderr`. -/
theorem stderrChunk_spec (s : St) (text : Str) :
    (stderrChunk s text).settled = s.settled ∧
    (∀ id, capturedFor (stderrChunk s text) id = capturedFor s id) ∧
    (trim text ≠ [] → (stderrChunk s text).events =
      s.events ++ (s.outputs.map (·.1)).map
        (fun k => EvOut.cmdOutput k Src.stderr (trim text))) := by
  unfold stderrChunk
  split
  · next h => exact ⟨rfl, fun _ => rfl, fun hne => absurd h hne⟩
  · obtain ⟨h1, h2, h3⟩ := foldl_stderrIter_spec (trim text) (s.outputs.map (·.1)) s
    exact ⟨h1, h2, fun _ => h3⟩

theorem tailLine_emit_good (st : TailSt) (l : Str)
    (h : ∀ p ∈ st.emitted, GoodLine p.2) :
    ∀ p ∈ (tailLine st l).emitted, GoodLine p.2 := by
  unfold tailLine
  split
  · exact h
  · next hne =>
    split
    · exact h
    · intro p hp
      rcases List.mem_append.mp hp with h1 | h1
      · exact h p h1
      · simp only [List.mem_singleton] at h1
        subst h1
        exact ⟨trim_trim l, hne⟩

theorem tailChunk_emit_good (st : TailSt) (c : Str)
    (h : ∀ p ∈ st.emitted, GoodLine p.2) :
    ∀ p ∈ (tailChunk st c).emitted, GoodLine p.2 := by
  show ∀ p ∈ ((splitNl (st.buf ++ c)).dropLast.foldl tailLine
    { st with buf := [] }).emitted, GoodLine p.2
  exact foldl_preserve (fun x => ∀ p ∈ x.emitted, GoodLine p.2) tailLine
    (fun x l hx => tailLine_emit_good x l hx) (splitNl (st.buf ++ c)).dropLast
    { st with buf := [] } h

/-- Every line the electron log-stream handler forwards is trimmed and
nonblank. -/
theorem runTail_emit_good (f0 : Str) (chunks : List Str) :
    ∀ p ∈ (runTail f0 chunks).emitted, GoodLine p.2 := by
  unfold runTail
  refine foldl_preserve (fun x => ∀ p ∈ x.emitted, GoodLine p.2) tailChunk
    (fun x c hx => tailChunk_emit_good x c hx) chunks _ ?_
  intro p hp
  simp at hp

theorem mergeHead_ne_nil (x : Str) (l : List Str) : mergeHead x l ≠ [] := by
  cases l <;> simp [mergeHead]

theorem dropLast_append_ne_nil {α : Type _} (l1 l2 : List α) (h : l2 ≠ []) :
    (l1 ++ l2).dropLast = l1 ++ l2.dropLast := by
  induction l1 with
  | nil => simp
  | cons a t ih =>
    have hne : t ++ l2 ≠ [] := by
      intro hc
      rcases List.append_eq_nil.mp hc with ⟨_, h2⟩
      exact h h2
    rw [List.cons_append, List.dropLast_cons_of_ne_nil hne, ih]
    rfl

theorem getLastD_append_ne_nil {α : Type _} (l1 l2 : List α) (d : α) (h : l2 ≠ []) :
    (l1 ++ l2).getLastD d = l2.getLastD d := by
  rw [List.getLastD_eq_getLast?, List.getLastD_eq_getLast?,
    List.getLast?_append_of_ne_nil _ h]

theorem getLastD_mem {α : Type _} (l : List α) (d : α) (h : l ≠ []) :
    l.getLastD d ∈ l := by
  rw [List.getLastD_eq_getLast?, List.getLast?_eq_getLast l h]
  exact List.getLast_mem h

theorem tailLine_set_buf (st : TailSt) (b l : Str) :
    tailLine { st with buf := b } l = { tailLine st l with buf := b } := by
  unfold tailLine
  split
  · rfl
  · split <;> rfl

theorem foldl_tailLine_set_buf (lines : List Str) (st : TailSt) (b : Str) :
    lines.foldl tailLine { st with buf := b } =
      { lines.foldl tailLine st with buf := b } := by
  induction lines generalizing st with
  | nil => rfl
  | cons l rest ih =>
    rw [List.foldl_cons, tailLine_set_buf, ih, List.foldl_cons]

/-- The buffered splitter is a function of the concatenated stream: feeding
any chunking of a byte stream processes exactly the complete lines of the
whole stream, and buffers the trailing partial line. -/
theorem foldl_tailChunk_spec (chunks : List Str) (st : TailSt)
    (h : '\n' ∉ st.buf) :
    chunks.foldl tailChunk st =
      { (splitNl (st.buf ++ joinAll chunks)).dropLast.foldl tailLine st with
        buf := (splitNl (st.buf ++ joinAll chunks)).getLastD [] } := by
  induction chunks generalizing st with
  | nil =>
    rw [List.foldl_nil, joinAll, List.append_nil, splitNl_no_nl st.buf h]
    rfl
  | cons c cs ih =>
    rw [List.foldl_cons]
    have hlast : '\n' ∉ (splitNl (st.buf ++ c)).getLastD [] :=
      splitNl_mem_no_nl (st.buf ++ c) _
        (getLastD_mem _ _ (splitNl_ne_nil (st.buf ++ c)))
    have htc : tailChunk st c =
        { (splitNl (st.buf ++ c)).dropLast.foldl tailLine st with
          buf := (splitNl (st.buf ++ c)).getLastD [] } := by
      show { (splitNl (st.buf ++ c)).dropLast.foldl tailLine { st with buf := [] } with
          buf := (splitNl (st.buf ++ c)).getLastD [] } = _
      rw [foldl_tailLine_set_buf]
    rw [htc, ih _ hlast]
    have hsplit1 : splitNl ((splitNl (st.buf ++ c)).getLastD [] ++ joinAll cs)
        = mergeHead ((splitNl (st.buf ++ c)).getLastD []) (splitNl (joinAll cs)) := by
      rw [splitNl_append, splitNl_no_nl _ hlast]
      rfl
    have hsplit2 : splitNl (st.buf ++ (c ++ joinAll cs))
        = (splitNl (st.buf ++ c)).dropLast ++
            mergeHead ((splitNl (st.buf ++ c)).getLastD []) (splitNl (joinAll cs)) := by
      rw [← List.append_assoc, splitNl_append]
    rw [joinAll, hsplit2, hsplit1]
    rw [dropLast_append_ne_nil _ _ (mergeHead_ne_nil _ _),
      getLastD_append_ne_nil _ _ _ (mergeHead_ne_nil _ _)]
    rw [List.foldl_append, foldl_tailLine_set_buf]

/-- Claim C1, evaluated at the failing input: with command 1 Active and
command 2 Queued, process exit rejects only the queued command with
`RDE session closed` and emits the `disconnected` status event; the
Active command's promise is never settled — not even by its still-pending
timers, whose callbacks dereference the nulled process handle. The spec's
requirement that *every* Queued and Active command is failed does not hold
for the Active one. -/
theorem c1_exit_fails_only_queued :
    (run [Ev.submit "ls".toList 1, Ev.submit "pwd".toList 2]).current
        = some ⟨1, "ls".toList, false⟩ ∧
    (run [Ev.submit "ls".toList 1, Ev.submit "pwd".toList 2, Ev.exited,
        Ev.hardFire 1, Ev.earlyFire 1]).settled
        = [(2, Settled.rejectedMsg closedMsg)] ∧
    EvOut.status "disconnected".toList closedMsg
        ∈ (run [Ev.submit "ls".toList 1, Ev.submit "pwd".toList 2, Ev.exited,
            Ev.hardFire 1, Ev.earlyFire 1]).events := by
  decide

/-- Claim C2: every delivered completion result, on every trigger path
(prompt match, early policy and hard timeout on the session machine, and
the server variant's inactivity poll via `completeCommand`), has exit code
`0` and output equal to the newline-join of the captured content lines. -/
theorem c2_completion_exit_code_zero_join :
    (∀ (evs : List Ev), ∀ e ∈ (run evs).settled,
      ∀ (trig : Trigger) (cap : List Str) (r : CmdResult),
        e.2 = Settled.resolvedVia trig cap r →
        r.exitCode = 0 ∧ r.output = joinNl cap) ∧
    (∀ (outs : List (Nat × Outputs)) (id : Nat) (g : Bool) (ts : Nat)
        (r : CmdResult), inactivityOutcome outs id g ts = some r →
        r.exitCode = 0 ∧ r.output = joinNl (capturedIn outs id)) := by
  constructor
  · intro evs e he trig cap r hr
    have h := (stGood_run evs).1 e he
    obtain ⟨i, sl⟩ := e
    cases sl with
    | resolvedVia t c rr =>
      cases hr
      exact ⟨h.1, h.2.1⟩
    | rejectedMsg m => simp at hr
  · intro outs id g ts r hr
    unfold inactivityOutcome at hr
    cases hact : checkOutputActivity g ts (mapGet outs id) with
    | complete =>
      rw [hact] at hr
      simp only [Option.some.injEq] at hr
      subst hr
      exact ⟨rfl, rfl⟩
    | recheck d => rw [hact] at hr; simp at hr
    | idle => rw [hact] at hr; simp at hr

/-- Witness for C2: a prompt-match completion and an inactivity completion
at concrete inputs. -/
theorem c2_completion_exit_code_zero_join_witness :
    ((⟨0, "x".toList⟩ : CmdResult).exitCode = 0 ∧
      (⟨0, "x".toList⟩ : CmdResult).output = joinNl ["x".toList]) ∧
    ((⟨0, "y".toList⟩ : CmdResult).exitCode = 0 ∧
      (⟨0, "y".toList⟩ : CmdResult).output =
        joinNl (capturedIn [(1, ⟨["y".toList], []⟩)] 1)) :=
  ⟨c2_completion_exit_code_zero_join.1
      [Ev.submit "ls".toList 1, Ev.stdout "x\n$ ".toList]
      (1, Settled.resolvedVia Trigger.promptMatch ["x".toList] ⟨0, "x".toList⟩)
      (by decide) Trigger.promptMatch ["x".toList] ⟨0, "x".toList⟩ rfl,
   c2_completion_exit_code_zero_join.2 [(1, ⟨["y".toList], []⟩)] 1 true 1500
      ⟨0, "y".toList⟩ (by decide)⟩

/-- Claim C3: the prompt pattern matches exactly the lines ending in `#`
or `$` followed only by whitespace; a prompt line arriving with a command
Active immediately completes it with the join of the previously captured
lines; and the chunk `"ok\n$ "` completes the active `echo ok` via prompt
match with output `"ok"`. -/
theorem c3_prompt_match_completion :
    (∀ l : Str, isPrompt l = true ↔
      ∃ pre c ws, l = pre ++ c :: ws ∧ (c = '#' ∨ c = '$') ∧
        ∀ x ∈ ws, isWs x = true) ∧
    (∀ (s : St) (t : Tracker) (l : Str), s.current = some t →
      isPrompt l = true →
      (stdoutLine s l).settled = s.settled ++
        [(t.id, Settled.resolvedVia Trigger.promptMatch (capturedFor s t.id)
          ⟨0, joinNl (capturedFor s t.id)⟩)]) ∧
    ((run [Ev.submit "echo ok".toList 1, Ev.stdout "ok\n$ ".toList]).settled =
      [(1, Settled.resolvedVia Trigger.promptMatch ["ok".toList]
        ⟨0, "ok".toList⟩)]) :=
  ⟨isPrompt_iff, stdoutLine_prompt_settled, by decide⟩

/-- Witness for C3 at a concrete state and the prompt line `"$ "`. -/
theorem c3_prompt_match_completion_witness :
    (∃ pre c ws, ("$ ".toList : Str) = pre ++ c :: ws ∧ (c = '#' ∨ c = '$') ∧
      ∀ x ∈ ws, isWs x = true) ∧
    (stdoutLine { connectedSt with
        current := some ⟨1, "echo ok".toList, false⟩
        executing := true
        outputs := [(1, ⟨["ok".toList], []⟩)] } "$ ".toList).settled =
      [(1, Settled.resolvedVia Trigger.promptMatch ["ok".toList]
        ⟨0, "ok".toList⟩)] := by
  constructor
  · exact (c3_prompt_match_completion.1 "$ ".toList).mp (by decide)
  · rw [c3_prompt_match_completion.2.1 _ ⟨1, "echo ok".toList, false⟩ _ rfl
      (by decide)]
    decide

/-- Claim C4: for an active command matching the early-completion pattern,
a content line with the guard flag already set schedules no further timer;
the first content line captures the line and schedules exactly one
grace-window timer while setting `_earlyCompleteScheduled`; window expiry
completes the command with everything captured so far; and the 5-line
scenario schedules exactly one timer and completes via the early policy
with all 5 lines. -/
theorem c4_early_policy_grace_window :
    (∀ (s : St) (t : Tracker) (l : Str), s.current = some t →
      t.earlyScheduled = true → (stdoutLine s l).earlyTimers = s.earlyTimers) ∧
    (∀ (s : St) (t : Tracker) (out : Outputs) (l : Str),
      s.current = some t → t.earlyScheduled = false →
      isSub earlyPat t.command = true → s.outputs = [(t.id, out)] →
      trim l ≠ [] → isPrompt l = false →
      stdoutLine s l = { s with
        outputs := [(t.id, { out with stdout := out.stdout ++ [trim l] })]
        events := s.events ++ [EvOut.cmdOutput t.id Src.stdout (trim l)]
        current := some ⟨t.id, t.command, true⟩
        earlyTimers := s.earlyTimers ++ [t.id] }) ∧
    (∀ (s : St) (t : Tracker), s.procAlive = true → s.current = some t →
      t.id ∈ s.earlyTimers →
      (earlyFire s t.id).settled = s.settled ++
        [(t.id, Settled.resolvedVia Trigger.earlyPolicy (capturedFor s t.id)
          ⟨0, joinNl (capturedFor s t.id)⟩)]) ∧
    ((run [Ev.submit "sudo supervisorctl status all".toList 1,
        Ev.stdout "a\nb\nc\nd\ne\n".toList]).earlyTimers = [1] ∧
     (run [Ev.submit "sudo supervisorctl status all".toList 1,
        Ev.stdout "a\nb\nc\nd\ne\n".toList, Ev.earlyFire 1]).settled =
      [(1, Settled.resolvedVia Trigger.earlyPolicy
        ["a".toList, "b".toList, "c".toList, "d".toList, "e".toList]
        ⟨0, "a\nb\nc\nd\ne".toList⟩)]) :=
  ⟨stdoutLine_no_second_timer, stdoutLine_first_content, earlyFire_settled,
    by decide, by decide⟩

/-- Witness for C4: the guard blocks a second timer on a follow-up content
line, and grace-window expiry completes with all captured lines. -/
theorem c4_early_policy_grace_window_witness :
    (stdoutLine { connectedSt with
        current := some ⟨1, "sudo supervisorctl status all".toList, true⟩
        executing := true
        outputs := [(1, ⟨["a".toList], []⟩)]
        earlyTimers := [1] } "b".toList).earlyTimers = [1] ∧
    (earlyFire { connectedSt with
        current := some ⟨1, "sudo supervisorctl status all".toList, true⟩
        executing := true
        outputs := [(1, ⟨["a".toList, "b".toList], []⟩)]
        earlyTimers := [1] } 1).settled =
      [(1, Settled.resolvedVia Trigger.earlyPolicy
        ["a".toList, "b".toList] ⟨0, "a\nb".toList⟩)] := by
  constructor
  · exact c4_early_policy_grace_window.1 _
      ⟨1, "sudo supervisorctl status all".toList, true⟩ "b".toList rfl rfl
  · rw [c4_early_policy_grace_window.2.2.1 _
      ⟨1, "sudo supervisorctl status all".toList, true⟩ rfl rfl (by decide)]
    decide

/-- Claim C5: the inactivity poll completes a command exactly when the
tracker guard holds, at least 1000 ms have passed since the last output,
and at least one stdout line has been captured; with no captured content
it never completes, and whenever it does not complete under the guard it
re-checks after 200 ms. -/
theorem c5_inactivity_requires_output :
    (∀ (g : Bool) (ts : Nat) (o : Option Outputs),
      checkOutputActivity g ts o = ActivityAction.complete ↔
        (g = true ∧ 1000 ≤ ts ∧ ∃ out, o = some out ∧ 0 < out.stdout.length)) ∧
    (∀ (g : Bool) (ts : Nat),
      checkOutputActivity g ts none ≠ ActivityAction.complete) ∧
    (∀ (g : Bool) (ts : Nat) (out : Outputs), out.stdout = [] →
      checkOutputActivity g ts (some out) ≠ ActivityAction.complete) ∧
    (∀ (ts : Nat) (o : Option Outputs),
      checkOutputActivity true ts o ≠ ActivityAction.complete →
      checkOutputActivity true ts o = ActivityAction.recheck 200) := by
  have hmain : ∀ (g : Bool) (ts : Nat) (o : Option Outputs),
      checkOutputActivity g ts o = ActivityAction.complete ↔
        (g = true ∧ 1000 ≤ ts ∧ ∃ out, o = some out ∧ 0 < out.stdout.length) := by
    intro g ts o
    constructor
    · intro h
      unfold checkOutputActivity at h
      split at h
      · next hg =>
        split at h
        · next hts =>
          cases o with
          | some out =>
            dsimp only at h
            split at h
            · next hlen => exact ⟨hg, hts, out, rfl, hlen⟩
            · simp at h
          | none => simp at h
        · simp at h
      · simp at h
    · rintro ⟨hg, hts, out, rfl, hlen⟩
      unfold checkOutputActivity
      rw [if_pos hg, if_pos hts]
      dsimp only
      rw [if_pos hlen]
  refine ⟨hmain, ?_, ?_, ?_⟩
  · intro g ts h
    rcases (hmain g ts none).mp h with ⟨_, _, out, hout, _⟩
    exact Option.noConfusion hout
  · intro g ts out hout h
    rcases (hmain g ts (some out)).mp h with ⟨_, _, out', hout', hlen⟩
    rw [Option.some.injEq] at hout'
    rw [← hout', hout] at hlen
    simp at hlen
  · intro ts o h
    unfold checkOutputActivity at h ⊢
    rw [if_pos rfl] at h ⊢
    by_cases hts : 1000 ≤ ts
    · rw [if_pos hts] at h ⊢
      cases o with
      | some out =>
        dsimp only at h ⊢
        by_cases hlen : 0 < out.stdout.length
        · rw [if_pos hlen] at h
          exact absurd rfl h
        · rw [if_neg hlen]
      | none => rfl
    · rw [if_neg hts]

/-- Witness for C5 at concrete inputs. -/
theorem c5_inactivity_requires_output_witness :
    checkOutputActivity true 1500 (some ⟨["a".toList], []⟩)
      = ActivityAction.complete ∧
    checkOutputActivity true 5000 (some ⟨[], []⟩) ≠ ActivityAction.complete ∧
    checkOutputActivity true 500 (some ⟨["a".toList], []⟩)
      = ActivityAction.recheck 200 := by
  refine ⟨?_, ?_, ?_⟩
  · exact (c5_inactivity_requires_output.1 true 1500 _).mpr
      ⟨rfl, by decide, ⟨["a".toList], []⟩, rfl, by decide⟩
  · exact c5_inactivity_requires_output.2.2.1 true 5000 ⟨[], []⟩ rfl
  · exact c5_inactivity_requires_output.2.2.2 500 _ (by decide)

/-- Claim C6, counterexample: in the electron variant, connect while
already Connected is not a no-op success. No second process is spawned,
but with no further greeting output the handler re-runs the greeting wait,
times out, kills the previously healthy session process and reports
failure. -/
theorem c6_connect_when_connected_counterexample :
    (connectElectron ⟨true, true, []⟩ []).2.2 = false ∧
    (connectElectron ⟨true, true, []⟩ []).1 = ConnectResult.failTimeout ∧
    (connectElectron ⟨true, true, []⟩ []).2.1.procExists = false := by
  decide

/-- Claim C6, amended: connect never spawns a second process while one
already exists (covering both Connecting and Connected); the server
variant returns success immediately as a true no-op when already
connected; the electron variant instead re-waits for the greeting and,
when none arrives within the window, fails by timeout and closes the
existing session. -/
theorem c6_connect_no_second_spawn :
    (∀ (s : ConnSt) (chunks : List Str), s.procExists = true →
      (connectElectron s chunks).2.2 = false) ∧
    (∀ (s : ConnSt) (chunks : List Str), s.connected = true →
      s.procExists = true →
      connectServer s chunks = (ConnectResult.ok, s, false)) ∧
    (∀ s : ConnSt, s.procExists = true →
      (connectElectron s []).1 = ConnectResult.failTimeout ∧
      (connectElectron s []).2.1.procExists = false) := by
  refine ⟨?_, ?_, ?_⟩
  · intro s chunks h
    unfold connectElectron
    split
    · show (createSession s).2 = false
      unfold createSession
      rw [if_pos h]
    · show (createSession s).2 = false
      unfold createSession
      rw [if_pos h]
  · intro s chunks h1 h2
    unfold connectServer
    rw [if_pos ⟨h1, h2⟩]
  · intro s _
    unfold connectElectron
    rw [if_neg (by decide : ¬(welcomeWait [] [] = true))]
    exact ⟨rfl, rfl⟩

/-- Witness for C6 (amended) at concrete states. -/
theorem c6_connect_no_second_spawn_witness :
    (connectElectron ⟨true, false, []⟩ ["Welcome!\n".toList]).2.2 = false ∧
    connectServer ⟨true, true, []⟩ [] = (ConnectResult.ok, ⟨true, true, []⟩, false) ∧
    (connectElectron ⟨true, true, "old".toList⟩ []).1 = ConnectResult.failTimeout := by
  refine ⟨?_, ?_, ?_⟩
  · exact c6_connect_no_second_spawn.1 ⟨true, false, []⟩ _ rfl
  · exact c6_connect_no_second_spawn.2.1 ⟨true, true, []⟩ [] rfl rfl
  · exact (c6_connect_no_second_spawn.2.2 ⟨true, true, "old".toList⟩ rfl).1

/-- Claim C7: the log-stream splitter is chunking-invariant — any two
chunkings of the same byte stream produce the same stream state (same
emitted lines, same context, same carried partial line) — and a chunk
ending mid-line followed by the chunk completing it emits exactly one line
with the concatenated text. -/
theorem c7_splitter_chunking_invariant :
    (∀ (f0 : Str) (cs1 cs2 : List Str), joinAll cs1 = joinAll cs2 →
      runTail f0 cs1 = runTail f0 cs2) ∧
    ((runTail "/a.log".toList
        ["2024 par".toList, "tial line\n".toList]).emitted
      = [("/a.log".toList, "2024 partial line".toList)]) := by
  constructor
  · intro f0 cs1 cs2 hj
    unfold runTail
    rw [foldl_tailChunk_spec cs1 _ (by simp),
      foldl_tailChunk_spec cs2 _ (by simp), hj]
  · decide

/-- Witness for C7: splitting the same stream at a different boundary. -/
theorem c7_splitter_chunking_invariant_witness :
    runTail "/x.log".toList ["ab\nc".toList] =
      runTail "/x.log".toList ["ab\n".toList, "c".toList] :=
  c7_splitter_chunking_invariant.1 "/x.log".toList _ _ (by decide)

/-- Claim C8: a complete line matching the `==> path <==` header format
updates the stream's current-file context and is not forwarded; every
other nonblank line is forwarded (trimmed) attributed to the current
context; and the header-A/3-lines/header-B/2-lines input yields exactly 3
lines attributed to A then 2 to B, in order. -/
theorem c8_header_attribution :
    (∀ (st : TailSt) (l f : Str), trim l ≠ [] →
      parseHeader (trim l) = some f →
      tailLine st l = { st with currentFile := f }) ∧
    (∀ (st : TailSt) (l : Str), trim l ≠ [] →
      parseHeader (trim l) = none →
      tailLine st l =
        { st with emitted := st.emitted ++ [(st.currentFile, trim l)] }) ∧
    ((runTail "/a.log".toList
        ["==> /a.log <==\n1\n2\n3\n==> /b.log <==\n4\n5\n".toList]).emitted
      = [("/a.log".toList, "1".toList), ("/a.log".toList, "2".toList),
         ("/a.log".toList, "3".toList), ("/b.log".toList, "4".toList),
         ("/b.log".toList, "5".toList)]) := by
  refine ⟨?_, ?_, by decide⟩
  · intro st l f hne hsome
    unfold tailLine
    rw [if_neg hne, hsome]
  · intro st l hne hnone
    unfold tailLine
    rw [if_neg hne, hnone]

/-- Witness for C8: one header line and one content line. -/
theorem c8_header_attribution_witness :
    tailLine ⟨[], "/a.log".toList, []⟩ "==> /b.log <==".toList =
      ⟨[], "/b.log".toList, []⟩ ∧
    tailLine ⟨[], "/b.log".toList, []⟩ "hello".toList =
      ⟨[], "/b.log".toList, [("/b.log".toList, "hello".toList)]⟩ := by
  constructor
  · rw [c8_header_attribution.1 _ _ "/b.log".toList (by decide) (by decide)]
  · rw [c8_header_attribution.2.1 _ _ (by decide) (by decide)]
    decide

/-- Claim C9: the stderr handler settles no command and contributes no
stdout capture — every event it publishes carries source `stderr` — and
every delivered result's output string is the newline-join of the
command's captured stdout lines alone. -/
theorem c9_stderr_not_in_result :
    (∀ (s : St) (text : Str),
      (stderrChunk s text).settled = s.settled ∧
      (∀ id, capturedFor (stderrChunk s text) id = capturedFor s id)) ∧
    (∀ (s : St) (text : Str), trim text ≠ [] →
      (stderrChunk s text).events = s.events ++
        (s.outputs.map (·.1)).map
          (fun k => EvOut.cmdOutput k Src.stderr (trim text))) ∧
    (∀ (evs : List Ev), ∀ e ∈ (run evs).settled,
      ∀ (trig : Trigger) (cap : List Str) (r : CmdResult),
        e.2 = Settled.resolvedVia trig cap r → r.output = joinNl cap) := by
  refine ⟨?_, ?_, ?_⟩
  · intro s text
    exact ⟨(stderrChunk_spec s text).1, (stderrChunk_spec s text).2.1⟩
  · intro s text hne
    exact (stderrChunk_spec s text).2.2 hne
  · intro evs e he trig cap r hr
    have h := (stGood_run evs).1 e he
    obtain ⟨i, sl⟩ := e
    cases sl with
    | resolvedVia t c rr =>
      cases hr
      exact h.2.1
    | rejectedMsg m => simp at hr

/-- Witness for C9: a stderr chunk against a session with one tracked
command, and a concrete delivered result. -/
theorem c9_stderr_not_in_result_witness :
    (stderrChunk c9St " err \n".toList).events = c9St.events ++
      (c9St.outputs.map (·.1)).map
        (fun k => EvOut.cmdOutput k Src.stderr (trim " err \n".toList)) ∧
    ("x".toList : Str) = joinNl ["x".toList] := by
  constructor
  · exact c9_stderr_not_in_result.2.1 c9St " err \n".toList (by decide)
  · exact c9_stderr_not_in_result.2.2
      [Ev.submit "ls".toList 1, Ev.stdout "x\n$ ".toList]
      (1, Settled.resolvedVia Trigger.promptMatch ["x".toList] ⟨0, "x".toList⟩)
      (by decide) Trigger.promptMatch ["x".toList] ⟨0, "x".toList⟩ rfl

/-- Claim C10, counterexample: the server-variant log forwarder drops
whitespace-only lines but forwards the surviving lines untrimmed — the
chunk containing the line `"  x  "` is forwarded verbatim, and that line
differs from its trimmed form, so not every forwarded log line is
whitespace-trimmed. -/
theorem c10_server_forwards_untrimmed :
    serverTailChunk ["/a.log".toList] 0 "  x  \n".toList
      = [("/a.log".toList, "  x  ".toList)] ∧
    trim "  x  ".toList ≠ "  x  ".toList := by
  decide

/-- Claim C10, amended: command content lines are whitespace-trimmed and
nonblank before storage, so every delivered output is a join of trimmed
nonblank lines; the electron log forwarder also trims its forwarded lines
and drops blank ones; the server-variant log forwarder drops
whitespace-only lines but forwards the remaining lines untrimmed. -/
theorem c10_trimming_amended :
    (∀ (evs : List Ev) (id : Nat), ∀ l ∈ capturedFor (run evs) id,
      trim l = l ∧ l ≠ []) ∧
    (∀ (evs : List Ev), ∀ e ∈ (run evs).settled,
      ∀ (trig : Trigger) (cap : List Str) (r : CmdResult),
        e.2 = Settled.resolvedVia trig cap r →
        ∀ l ∈ cap, trim l = l ∧ l ≠ []) ∧
    (∀ (f0 : Str) (chunks : List Str), ∀ p ∈ (runTail f0 chunks).emitted,
      trim p.2 = p.2 ∧ p.2 ≠ []) ∧
    (∀ (files : List Str) (i : Nat) (text : Str),
      ∀ p ∈ serverTailChunk files i text, trim p.2 ≠ []) := by
  refine ⟨?_, ?_, ?_, ?_⟩
  · intro evs id l hl
    exact capturedFor_good (run evs) (stGood_run evs) id l hl
  · intro evs e he trig cap r hr l hl
    have h := (stGood_run evs).1 e he
    obtain ⟨i, sl⟩ := e
    cases sl with
    | resolvedVia t c rr =>
      cases hr
      exact h.2.2 l hl
    | rejectedMsg m => simp at hr
  · intro f0 chunks p hp
    exact runTail_emit_good f0 chunks p hp
  · intro files i text p hp
    unfold serverTailChunk at hp
    rcases List.mem_map.mp hp with ⟨line, hline, rfl⟩
    have hpred := List.of_mem_filter hline
    simp only [Bool.not_eq_true'] at hpred
    intro hc
    rw [hc] at hpred
    simp at hpred

/-- Witness for C10 (amended): a captured command line is trimmed and
nonblank, and a server-forwarded line has nonblank trim. -/
theorem c10_trimming_amended_witness :
    (trim "x".toList = "x".toList ∧ ("x".toList : Str) ≠ []) ∧
    trim ("/a.log".toList, " y ".toList).2 ≠ [] := by
  constructor
  · exact c10_trimming_amended.1 [Ev.submit "ls".toList 1, Ev.stdout "x\n".toList]
      1 "x".toList (by decide)
  · exact c10_trimming_amended.2.2.2 ["/a.log".toList] 0 " y \n".toList
      ("/a.log".toList, " y ".toList) (by decide)

end Rde

